import Mathlib

/-!
Verification development for the smart-dns authoritative DNS server.

The definitions below are a shallow embedding of the Go sources:
  - `internal/zone/loader.go`  (zone store, zone file validation, `ToIndex`)
  - `internal/dnsserver/handler.go`  (query engine: `lookup`, `findRRSet`,
    `addAdditionals`, `lookupAorAAAA`, and the cache effect of `ServeDNS`)
  - `internal/cache/rrcache.go`  (`NewRRCaches`, `InvalidateZone`)
  - `cmd/smart-dns/main.go`  (`zoneReloader.OnZoneUpdated`)

Go maps keyed by strings are embedded as association lists with unique keys
(inserts replace existing keys).  Machine integers (`uint32`, `uint16`,
`int`) are embedded as `Nat`: none of the modelled code performs arithmetic
that can overflow (TTLs and serials are only compared and copied).
Go's string primitives (`strings.HasSuffix`, `strings.ToLower`, ...) are
embedded as character-list functions; the zone data handled by this system
is ASCII, for which the ASCII case mapping below agrees with Go's Unicode
one.  DNS wire types (`github.com/miekg/dns`) are embedded by a single
record structure carrying the fields the handler reads.
-/

set_option autoImplicit false

deriving instance DecidableEq for Except

namespace SmartDNS

/-! ## String helpers (embedding Go's `strings` / `miekg/dns` primitives) -/

/-- Lowercase one ASCII character (embeds the effect of `strings.ToLower`
per character on the ASCII zone data this system handles). -/
def lowerChar (c : Char) : Char :=
  if 'A' ≤ c ∧ c ≤ 'Z' then Char.ofNat (c.toNat + 32) else c

/-- Uppercase one ASCII character (embeds `strings.ToUpper` per character). -/
def upperChar (c : Char) : Char :=
  if 'a' ≤ c ∧ c ≤ 'z' then Char.ofNat (c.toNat - 32) else c

/-- Embeds `strings.ToLower`. -/
def strToLower (s : String) : String := ⟨s.data.map lowerChar⟩

/-- Embeds `strings.ToUpper`. -/
def strToUpper (s : String) : String := ⟨s.data.map upperChar⟩

/-- Embeds `strings.HasSuffix`. -/
def strEndsWith (s p : String) : Bool := p.data.isSuffixOf s.data

/-- The length of a string in characters (all names here are ASCII, so this
agrees with Go's byte length used by `GetZoneForName`'s comparison). -/
def strLength (s : String) : Nat := s.data.length

/-- Split a character list at every dot (the separator semantics of
`strings.Split(s, ".")`). -/
def splitDotsAux : List Char → List Char → List String
  | [], acc => [⟨acc.reverse⟩]
  | c :: rest, acc =>
    if c = '.' then ⟨acc.reverse⟩ :: splitDotsAux rest []
    else splitDotsAux rest (c :: acc)

/-- Embeds `strings.Split(s, ".")`. -/
def splitOnDot (s : String) : List String := splitDotsAux s.data []

/-- Join labels with dots (embeds `strings.Join(labels, ".")`). -/
def joinDots : List String → String
  | [] => ""
  | [s] => s
  | s :: rest => s ++ "." ++ joinDots rest

/-- Drop the final character (used to strip a trailing dot). -/
def dropLastChar (s : String) : String := ⟨s.data.dropLast⟩

/-- Association-list find, embedding a Go map read `m[k]` (returns the first
binding; all maps built here keep keys unique because inserts replace). -/
def assocFind {κ α : Type} [DecidableEq κ] : List (κ × α) → κ → Option α
  | [], _ => none
  | (k', v) :: t, k => if k' = k then some v else assocFind t k

/-- Association-list insert-or-replace, embedding a Go map write `m[k] = v`. -/
def assocInsert {κ α : Type} [DecidableEq κ] : List (κ × α) → κ → α → List (κ × α)
  | [], k, v => [(k, v)]
  | (k', v') :: t, k, v => if k' = k then (k, v) :: t else (k', v') :: assocInsert t k v

/-- The keys of an association list (embeds iterating over a Go map's keys). -/
def keysOf {κ α : Type} (l : List (κ × α)) : List κ := l.map Prod.fst

/-- Embeds `dns.Fqdn` (miekg/dns): append a trailing dot unless present. -/
def goFqdn (s : String) : String := if strEndsWith s "." then s else s ++ "."

/-- Embeds `MustFQDN` from `internal/zone/loader.go`. -/
def MustFQDN (name : String) : String :=
  if name = "" then name else if strEndsWith name "." then name else name ++ "."

/-- Embeds `NormalizeFQDN` from `internal/zone/loader.go`: `@`/empty means the
apex, a trailing-dot name is kept verbatim, otherwise the zone is appended;
the result is lowercased. -/
def NormalizeFQDN (name zone : String) : String :=
  if name = "@" ∨ name = "" then strToLower zone
  else if strEndsWith name "." then strToLower name
  else strToLower (name ++ "." ++ zone)

/-- Embeds `ensureTTL`: a `nil` or zero explicit TTL falls back to the default. -/
def ensureTTL (ttl : Option Nat) (def_ : Nat) : Nat :=
  match ttl with
  | none => def_
  | some t => if t = 0 then def_ else t

/-- Embeds `dns.SplitDomainName`: the labels of a name, ignoring escaped dots
(which never occur in this system's zone data). `""` and `"."` give no labels. -/
def splitDomainName (s : String) : List String :=
  if s = "" ∨ s = "." then []
  else splitOnDot (if strEndsWith s "." then dropLastChar s else s)

/-- Embeds the Go `min` helper in `handler.go`, which treats `0` as "unset". -/
def goMin (a b : Nat) : Nat :=
  if a = 0 then b else if b = 0 then a else if a < b then a else b

/-! ## Zone model (`internal/zone/`) -/

/-- Embeds an MX rdata element (`zone.MX`). -/
structure MX where
  preference : Nat
  host : String
deriving DecidableEq

/-- Embeds an SRV rdata element (`zone.SRV`). -/
structure SRV where
  priority : Nat
  weight : Nat
  port : Nat
  target : String
deriving DecidableEq

/-- Embeds `zone.SOA`. -/
structure SOA where
  mname : String
  rname : String
  refresh : Nat := 0
  retry : Nat := 0
  expire : Nat := 0
  negativeTTL : Nat := 0
deriving DecidableEq

/-- Embeds the decoded JSON `values` field of a record (`RawRecord.Values`,
a Go `any`).  The JSON decoding itself is out of scope; the constructors
stand for the three element shapes the loader accepts plus absence. -/
inductive RawValues where
  | strs (l : List String)
  | mxs (l : List MX)
  | srvs (l : List SRV)
  | missing
deriving DecidableEq

/-- Embeds `zone.RawRecord`. -/
structure RawRecord where
  name : String
  rtype : String
  ttl : Option Nat := none
  value : String := ""
  values : RawValues := .missing
deriving DecidableEq

/-- Embeds `zone.ZoneFile`. -/
structure ZoneFile where
  zone : String
  serial : Nat := 0
  ttlDefault : Nat := 0
  soa : SOA
  ns : List String := []
  records : List RawRecord := []
deriving DecidableEq

/-- Embeds `zone.RRSet`.  A/AAAA addresses are kept as their source strings
(the loader's `To4`/`To16` canonicalisation plays no role in the claims). -/
structure RRSet where
  rtype : String
  ttl : Nat
  a : List String := []
  aaaa : List String := []
  cname : String := ""
  ns : List String := []
  txt : List String := []
  mx : List MX := []
  srv : List SRV := []
deriving DecidableEq

/-- The per-name map `type -> RRSet` inside a zone index. -/
abbrev NameMap := List (String × RRSet)

/-- The `name -> type -> RRSet` map of a zone index. -/
abbrev ByName := List (String × NameMap)

/-- Embeds `zone.ZoneIndex`. -/
structure ZoneIndex where
  zoneFQDN : String
  serial : Nat
  soa : SOA
  ttlDef : Nat
  byName : ByName
deriving DecidableEq

/-- Embeds `ZoneFile.Validate`, which also coerces the zone to trailing-dot
form; the coerced zone string is returned on success. -/
def ZoneFile.validate? (z : ZoneFile) : Except String String :=
  if z.zone = "" then .error "zone is required"
  else
    let zone := if strEndsWith z.zone "." then z.zone else z.zone ++ "."
    if z.soa.mname = "" ∨ z.soa.rname = "" then .error "soa.mname and soa.rname required"
    else if z.ns = [] then .error "at least one NS required"
    else .ok zone

/-- Embeds `normalizeFQDNs`. -/
def normalizeFQDNs (v : List String) : List String :=
  v.map (fun s => strToLower (MustFQDN s))

/-- Embeds `hasOtherTypes` verbatim: empty map gives `false`; a one-entry map
gives whether that entry is the CNAME one; larger maps give `true`. -/
def hasOtherTypes (m : NameMap) : Bool :=
  if m.length = 0 then false
  else if m.length = 1 then (assocFind m "CNAME").isSome
  else true

/-- Embeds the read-create-min part of `appendRRSet`: fetch the RRSet at the
type, creating it with the given TTL if absent, and lower its TTL to the
minimum of the stored and the incoming TTL. -/
def appendRRSetBase (m : NameMap) (t : String) (ttl : Nat) : RRSet :=
  match assocFind m t with
  | some r => if r.ttl > ttl then { r with ttl := ttl } else r
  | none => { rtype := t, ttl := ttl }

/-- Models `net.ParseIP` followed by `To4` for dotted-quad literals: four
decimal fields, each without leading zeros and at most 255.  (Go would also
accept an IPv4-mapped IPv6 literal here; no claim depends on that corner.) -/
def parseIPv4 (s : String) : Bool :=
  match splitOnDot s with
  | [a, b, c, d] =>
    [a, b, c, d].all fun f =>
      if f.data.length = 0 then false
      else if 3 < f.data.length then false
      else if f.data.all Char.isDigit = false then false
      else if 1 < f.data.length ∧ f.data.headD 'x' = '0' then false
      else decide (f.data.foldl (fun acc c => acc * 10 + (c.toNat - 48)) 0 ≤ 255)
  | _ => false

/-- Predicate for hexadecimal digits used by the AAAA model. -/
def isHexDigitChar (c : Char) : Bool :=
  c.isDigit || decide ('a' ≤ c ∧ c ≤ 'f') || decide ('A' ≤ c ∧ c ≤ 'F')

/-- Models `net.ParseIP`/`To16`/`To4` for AAAA records: a colon-separated hex
address that is not IPv4(-mapped).  Simplified to a shape check; no claim
depends on AAAA address parsing. -/
def parseIPv6NotV4 (s : String) : Bool :=
  s.data.contains ':' && !s.data.contains '.' &&
    s.data.all (fun c => isHexDigitChar c || c = ':')

/-- Embeds `toStringSlice` over the decoded `values` shapes. -/
def toStringSlice : RawValues → Except String (List String)
  | .strs l => .ok l
  | .missing => .error "values missing"
  | _ => .error "expected string in values"

/-- Embeds `toMXSlice` over the decoded `values` shapes. -/
def toMXSlice : RawValues → Except String (List MX)
  | .mxs l => .ok l
  | .missing => .error "values must be array for MX"
  | _ => .error "MX value must be object"

/-- Embeds `toSRVSlice` over the decoded `values` shapes. -/
def toSRVSlice : RawValues → Except String (List SRV)
  | .srvs l => .ok l
  | .missing => .error "values must be array for SRV"
  | _ => .error "SRV value must be object"

/-- The type-switch body of `ToIndex`'s record loop: given the uppercased
type token, the current per-name map and effective TTL, produce the updated
per-name map (which `ToIndex` stores back at the record's FQDN) or reject. -/
def updateNameMap (rt : String) (m : NameMap) (ttl : Nat) (r : RawRecord)
    (zoneFQDN : String) : Except String NameMap :=
  if rt = "CNAME" then
    if r.value = "" then .error "CNAME requires value"
    else if hasOtherTypes m then .error "CNAME must be unique at name"
    else .ok (assocInsert m "CNAME"
      { rtype := "CNAME", ttl := ttl, cname := NormalizeFQDN r.value zoneFQDN })
  else if rt = "A" then
    match toStringSlice r.values with
    | .error e => .error e
    | .ok ips =>
      if ips.all parseIPv4 then
        let base := appendRRSetBase m "A" ttl
        .ok (assocInsert m "A" { base with a := base.a ++ ips })
      else .error "invalid A ip"
  else if rt = "AAAA" then
    match toStringSlice r.values with
    | .error e => .error e
    | .ok ips =>
      if ips.all parseIPv6NotV4 then
        let base := appendRRSetBase m "AAAA" ttl
        .ok (assocInsert m "AAAA" { base with aaaa := base.aaaa ++ ips })
      else .error "invalid AAAA ip"
  else if rt = "TXT" then
    match toStringSlice r.values with
    | .error e => .error e
    | .ok vals =>
      let base := appendRRSetBase m "TXT" ttl
      .ok (assocInsert m "TXT" { base with txt := base.txt ++ vals })
  else if rt = "NS" then
    match toStringSlice r.values with
    | .error e => .error e
    | .ok vals =>
      let base := appendRRSetBase m "NS" ttl
      .ok (assocInsert m "NS" { base with ns := base.ns ++ normalizeFQDNs vals })
  else if rt = "MX" then
    match toMXSlice r.values with
    | .error e => .error e
    | .ok mxs =>
      let mxs' := mxs.map (fun x => { x with host := strToLower (MustFQDN x.host) })
      let base := appendRRSetBase m "MX" ttl
      .ok (assocInsert m "MX" { base with mx := base.mx ++ mxs' })
  else if rt = "SRV" then
    match toSRVSlice r.values with
    | .error e => .error e
    | .ok srvs =>
      let srvs' := srvs.map (fun x => { x with target := strToLower (MustFQDN x.target) })
      let base := appendRRSetBase m "SRV" ttl
      .ok (assocInsert m "SRV" { base with srv := base.srv ++ srvs' })
  else .error "unsupported type"

/-- One iteration of `ToIndex`'s record loop: normalize the type and name,
resolve the effective TTL, update the per-name map and store it back. -/
def processRecord (zoneFQDN : String) (ttlDefault : Nat) (byName : ByName)
    (r : RawRecord) : Except String ByName :=
  let rt := strToUpper r.rtype
  let fqdn := NormalizeFQDN r.name zoneFQDN
  let m := (assocFind byName fqdn).getD []
  let ttl := ensureTTL r.ttl ttlDefault
  match updateNameMap rt m ttl r zoneFQDN with
  | .error e => .error e
  | .ok m' => .ok (assocInsert byName fqdn m')

/-- The record loop of `ToIndex`, threading the name map through the records
in file order; the first record-level error rejects the whole zone. -/
def processRecords (zoneFQDN : String) (ttlDefault : Nat) :
    List RawRecord → ByName → Except String ByName
  | [], acc => .ok acc
  | r :: rest, acc =>
    match processRecord zoneFQDN ttlDefault acc r with
    | .error e => .error e
    | .ok acc' => processRecords zoneFQDN ttlDefault rest acc'

/-- Embeds `ZoneFile.ToIndex`: validate, install the apex NS RRset from the
top-level `ns` list, then fold the records. -/
def ZoneFile.toIndex (z : ZoneFile) : Except String ZoneIndex :=
  match z.validate? with
  | .error e => .error e
  | .ok zone =>
    let zoneFQDN := MustFQDN zone
    let init : ByName :=
      if z.ns.length > 0 then
        assocInsert [] (strToLower zoneFQDN)
          [("NS", { rtype := "NS", ttl := ensureTTL none z.ttlDefault,
                    ns := normalizeFQDNs z.ns })]
      else []
    match processRecords zoneFQDN z.ttlDefault z.records init with
    | .error e => .error e
    | .ok final =>
      .ok { zoneFQDN := strToLower zoneFQDN, serial := z.serial, soa := z.soa,
            ttlDef := z.ttlDefault, byName := final }

/-! ## Zone store (`internal/zone/loader.go`) -/

/-- The zone store's map, `zone fqdn (lowercase) -> index`. -/
abbrev ZoneMap := List (String × ZoneIndex)

/-- One step of `GetZoneForName`'s scan: keep the longest suffix match seen
so far (Go iterates the map in arbitrary order; the strict length comparison
over unique keys makes the result order-independent). -/
def getZoneStep (name : String) (best : Option ZoneIndex × String)
    (p : String × ZoneIndex) : Option ZoneIndex × String :=
  if strEndsWith name p.1 = true ∧ strLength best.2 < strLength p.1
  then (some p.2, p.1) else best

/-- Embeds `Store.GetZoneForName`: lowercase the qname, scan all zones,
return the longest zone FQDN that is a suffix of it (with its index). -/
def getZoneForName (zones : ZoneMap) (qname : String) : Option ZoneIndex × String :=
  let name := strToLower qname
  zones.foldl (getZoneStep name) (none, "")

/-- Embeds `Store.SwapZone`: insert or replace under the index's zone FQDN. -/
def swapZone (zones : ZoneMap) (zi : ZoneIndex) : ZoneMap :=
  assocInsert zones zi.zoneFQDN zi

/-! ## Query engine (`internal/dnsserver/handler.go`) -/

/-- Embeds the `dns.RR` values the handler produces: owner name, numeric
type, TTL, and the rdata fields the handler reads (`Target`/`Ns`/`Mx` are
collapsed into `target`; A/AAAA/TXT payloads into `data`). -/
structure RR where
  name : String
  rrtype : Nat
  ttl : Nat
  target : String := ""
  data : String := ""
  pref : Nat := 0
  weight : Nat := 0
  port : Nat := 0
deriving DecidableEq

instance : Inhabited RR := ⟨{ name := "", rrtype := 0, ttl := 0 }⟩

/-- Embeds `toRRType`: numeric qtype to the index's type token
(A=1, NS=2, CNAME=5, MX=15, TXT=16, AAAA=28, SRV=33; unknown gives `""`). -/
def toRRType (qt : Nat) : String :=
  if qt = 1 then "A" else if qt = 28 then "AAAA" else if qt = 5 then "CNAME"
  else if qt = 15 then "MX" else if qt = 2 then "NS" else if qt = 16 then "TXT"
  else if qt = 33 then "SRV" else ""

/-- Embeds `toRR`: expand an RRSet into wire records owned by `name`. -/
def toRR (name : String) (r : RRSet) : List RR :=
  if r.rtype = "A" then
    r.a.map (fun ip => { name := name, rrtype := 1, ttl := r.ttl, data := ip })
  else if r.rtype = "AAAA" then
    r.aaaa.map (fun ip => { name := name, rrtype := 28, ttl := r.ttl, data := ip })
  else if r.rtype = "CNAME" then
    [{ name := name, rrtype := 5, ttl := r.ttl, target := r.cname }]
  else if r.rtype = "NS" then
    r.ns.map (fun t => { name := name, rrtype := 2, ttl := r.ttl, target := t })
  else if r.rtype = "TXT" then
    r.txt.map (fun s => { name := name, rrtype := 16, ttl := r.ttl, data := s })
  else if r.rtype = "MX" then
    r.mx.map (fun x => { name := name, rrtype := 15, ttl := r.ttl, target := x.host,
                         pref := x.preference })
  else if r.rtype = "SRV" then
    r.srv.map (fun x => { name := name, rrtype := 33, ttl := r.ttl, target := x.target,
                          pref := x.priority, weight := x.weight, port := x.port })
  else []

/-- The wildcard owner names `findRRSet` scans for a queried name, in order:
for each proper label suffix (stripping at least one label, keeping at least
one), the name `*.<suffix>.`. -/
def wildcardCandidates (name : String) : List String :=
  let labels := splitDomainName name
  (List.range (labels.length - 1)).map
    (fun i => "*." ++ joinDots (labels.drop (i + 1)) ++ ".")

/-- The wildcard scan of `findRRSet`: first candidate owning the queried
type wins; a candidate owning a CNAME also wins.  Owner names of the
produced records are rewritten to the queried name. -/
def findWildcard (zi : ZoneIndex) (name : String) (qtype : Nat) :
    List String → Option (List RR × Nat)
  | [] => none
  | wc :: rest =>
    match assocFind zi.byName wc with
    | some m =>
      (match assocFind m (toRRType qtype) with
       | some rr => some (toRR name rr, rr.ttl)
       | none =>
         match assocFind m "CNAME" with
         | some rr => some (toRR name rr, rr.ttl)
         | none => findWildcard zi name qtype rest)
    | none => findWildcard zi name qtype rest

/-- Embeds `Resolver.findRRSet`: exact name and type first, then the
wildcard scan. -/
def findRRSet (zi : ZoneIndex) (name : String) (qtype : Nat) :
    Option (List RR × Nat) :=
  match assocFind zi.byName name with
  | some m =>
    (match assocFind m (toRRType qtype) with
     | some rr => some (toRR name rr, rr.ttl)
     | none => findWildcard zi name qtype (wildcardCandidates name))
  | none => findWildcard zi name qtype (wildcardCandidates name)

/-- Embeds `Resolver.hasName`: the name is a key of the index. -/
def hasName (zi : ZoneIndex) (name : String) : Bool :=
  (assocFind zi.byName name).isSome

/-- Embeds `Resolver.hasWildcardCandidate`: some wildcard owner for the
name is a key of the index. -/
def hasWildcardCandidate (zi : ZoneIndex) (name : String) : Bool :=
  (wildcardCandidates name).any (fun wc => (assocFind zi.byName wc).isSome)

/-- Embeds `Resolver.lookupAorAAAA`: the A and AAAA RRsets of a host looked
up in the same zone's index only. -/
def lookupAorAAAA (zi : ZoneIndex) (host : String) : List RR :=
  let name := strToLower (goFqdn host)
  match assocFind zi.byName name with
  | none => []
  | some m =>
    (match assocFind m "A" with | some rr => toRR name rr | none => []) ++
    (match assocFind m "AAAA" with | some rr => toRR name rr | none => [])

/-- Embeds `Resolver.addAdditionals`: for each MX (type 15) or NS (type 2)
answer, append that host's in-zone address records; no deduplication. -/
def addAdditionals (zi : ZoneIndex) (answers : List RR) : List RR :=
  answers.foldl
    (fun acc rr =>
      if rr.rrtype = 15 then acc ++ lookupAorAAAA zi rr.target
      else if rr.rrtype = 2 then acc ++ lookupAorAAAA zi rr.target
      else acc) []

/-- The CNAME-chain loop of `Resolver.lookup`, with the iteration budget as
fuel (`maxCNAME = 8`).  Returns `none` when the loop exits without a return
(break on no-CNAME, or budget exhausted); the caller then decides NODATA vs
NXDOMAIN.  Rcodes: 0 NOERROR, 2 SERVFAIL, 3 NXDOMAIN.  The Go code reads
the CNAME target through a type assertion on the first produced record,
which for loader-built indices is always the CNAME record. -/
def lookupLoop (zi : ZoneIndex) (qtype : Nat) :
    Nat → String → List String → List RR → Nat →
    Option (List RR × List RR × Nat × Nat)
  | 0, _, _, _, _ => none
  | fuel + 1, cur, visited, ans, ttl =>
    match findRRSet zi cur qtype with
    | some (rrs, t) => some (ans ++ rrs, addAdditionals zi rrs, 0, t)
    | none =>
      if cur ∈ visited then some ([], [], 2, 0)
      else
        match findRRSet zi cur 5 with
        | some (rrs, t) =>
          let tgt := strToLower ((rrs.headD default).target)
          let ttl1 := goMin ttl t
          let ttl2 := if ttl1 = 0 then t else ttl1
          lookupLoop zi qtype fuel tgt (cur :: visited) (ans ++ rrs) ttl2
        | none => none

/-- Embeds `Resolver.lookup`: normalize the qname, run the chain loop, and
on fall-through decide NODATA (NOERROR, no answers) vs NXDOMAIN using the
original normalized qname.  Result: (answers, additionals, rcode, ttl). -/
def lookup (zi : ZoneIndex) (qname : String) (qtype : Nat) :
    List RR × List RR × Nat × Nat :=
  let name := strToLower (goFqdn qname)
  match lookupLoop zi qtype 8 name [] [] 0 with
  | some r => r
  | none =>
    if hasName zi name || hasWildcardCandidate zi name then ([], [], 0, 0)
    else ([], [], 3, 0)

/-- A cache write performed by `ServeDNS` after an in-zone lookup. -/
inductive CachePut where
  | positive (name : String) (qtype : Nat) (ttl : Nat)
  | negative (name : String) (qtype : Nat) (rcode : Nat) (ttl : Nat)
deriving DecidableEq

/-- Embeds the cache effect of `ServeDNS` for an in-zone query (lines 84-99
of `handler.go`): a NOERROR response with answers is cached positively under
`(qname, qtype)` with the TTL `lookup` returned; any non-NOERROR response is
cached negatively with the zone SOA's `negative_ttl`; NOERROR without
answers (NODATA) is not cached. -/
def serveInZoneEffect (zi : ZoneIndex) (rawName : String) (qtype : Nat) :
    Option CachePut :=
  let qname := goFqdn rawName
  let r := lookup zi qname qtype
  if r.2.2.1 = 0 ∧ r.1 ≠ [] then some (.positive qname qtype r.2.2.2)
  else if r.2.2.1 ≠ 0 then some (.negative qname qtype r.2.2.1 zi.soa.negativeTTL)
  else none

/-! ## Response cache (`internal/cache/rrcache.go`) -/

/-- Embeds `NewRRCaches`'s calls to `lru.New` (hashicorp/golang-lru v2),
which fails unless the requested size is positive. -/
def lruNew (size : Nat) : Except String Nat :=
  if 1 ≤ size then .ok size else .error "must provide a positive size"

/-- Embeds `NewRRCaches`: a positive cache of the configured capacity and a
negative cache of a tenth of it; either failing construction fails both.
The result models the pair of capacities actually allocated. -/
def newRRCaches (capacity : Nat) : Except String (Nat × Nat) :=
  match lruNew capacity with
  | .error e => .error e
  | .ok pos =>
    match lruNew (capacity / 10) with
    | .error e => .error e
    | .ok neg => .ok (pos, neg)

/-- Embeds the cache key construction `RRCaches.key`: lowercased name plus
numeric qtype. -/
def cacheKey (name : String) (qtype : Nat) : String × Nat := (strToLower name, qtype)

/-- Embeds `InvalidateZone` on the set of positive-cache keys: every key
whose (already lowercase) name ends with the lowercased zone is removed. -/
def invalidateKeys (keys : List (String × Nat)) (zone : String) : List (String × Nat) :=
  let z := strToLower zone
  keys.filter (fun k => !(strEndsWith k.1 z))

/-! ## Reload coordinator (`cmd/smart-dns/main.go`) -/

/-- Embeds the store-and-cache effect of `zoneReloader.OnZoneUpdated` after
a successful parse: look up the currently installed zone for the new index's
FQDN via the store's longest-suffix search; if one exists with a serial at
least as large, do nothing; otherwise swap the new index in and invalidate
the cache for its zone FQDN (returned as the second component). -/
def onZoneUpdated (store : ZoneMap) (zi : ZoneIndex) : ZoneMap × Option String :=
  match (getZoneForName store zi.zoneFQDN).1 with
  | some old =>
    if zi.serial ≤ old.serial then (store, none)
    else (swapZone store zi, some zi.zoneFQDN)
  | none => (swapZone store zi, some zi.zoneFQDN)

/-! ## Observation helpers and the spec-side TTL aggregate -/

/-- Whether a loader result is a successful index mapping `n` to RRsets of
both types `t1` and `t2` (used to exhibit loader-accepted indices). -/
def indexHasTypes (e : Except String ZoneIndex) (n t1 t2 : String) : Bool :=
  match e with
  | .ok idx =>
    (match assocFind idx.byName n with
     | some m => (assocFind m t1).isSome && (assocFind m t2).isSome
     | none => false)
  | .error _ => false

/-- Whether a loader result is a successful index containing `n` as a key. -/
def indexAcceptedWithKey (e : Except String ZoneIndex) (n : String) : Bool :=
  match e with
  | .ok idx => (assocFind idx.byName n).isSome
  | .error _ => false

/-- The zone FQDN of a successful loader result (empty on error). -/
def indexZoneFQDN (e : Except String ZoneIndex) : String :=
  match e with
  | .ok idx => idx.zoneFQDN
  | .error _ => ""

/-- Formalises the spec's words for the positive-cache TTL: "the minimum TTL
across all answer records".  Stated from the spec, to be compared with what
the code actually caches. -/
def specMinAnswerTTL : List RR → Nat
  | [] => 0
  | h :: t => t.foldl (fun m r => Nat.min m r.ttl) h.ttl

/-! ## Concrete fixtures used by the claim theorems -/

/-- A well-formed SOA block shared by the fixtures. -/
def soa0 : SOA :=
  { mname := "ns1.example.com.", rname := "admin.example.com.", negativeTTL := 300 }

/-- Zone file whose records place an A RRset and then a CNAME at the same
name `w.example.com.`. -/
def zfC1 : ZoneFile :=
  { zone := "example.com", serial := 1, ttlDefault := 60, soa := soa0, ns := ["ns1"],
    records := [
      { name := "w", rtype := "A", values := .strs ["1.2.3.4"] },
      { name := "w", rtype := "CNAME", value := "x" } ] }

/-- Index with a dangling CNAME: `a.z.` points at `b.z.`, which has no
records at all. -/
def ziC2 : ZoneIndex :=
  { zoneFQDN := "z.", serial := 1, soa := soa0, ttlDef := 60,
    byName := [
      ("z.", [("NS", { rtype := "NS", ttl := 60, ns := ["n.z."] })]),
      ("a.z.", [("CNAME", { rtype := "CNAME", ttl := 5, cname := "b.z." })]) ] }

/-- Installed enclosing zone `com.` with a large serial. -/
def ziCom : ZoneIndex :=
  { zoneFQDN := "com.", serial := 100, soa := soa0, ttlDef := 60, byName := [] }

/-- Fresh sub-zone index `example.com.` with a small serial. -/
def ziEx5 : ZoneIndex :=
  { zoneFQDN := "example.com.", serial := 5, soa := soa0, ttlDef := 60, byName := [] }

/-- A minimal index for the zone `example.com.`. -/
def ziEx : ZoneIndex :=
  { zoneFQDN := "example.com.", serial := 1, soa := soa0, ttlDef := 60, byName := [] }

/-- An index for the zone `example.com.` with serial 100. -/
def ziCom100Ex : ZoneIndex :=
  { zoneFQDN := "example.com.", serial := 100, soa := soa0, ttlDef := 60, byName := [] }

/-- Index with a CNAME chain of length nine, `c0.z.` through `c8.z.`, whose
endpoint `c8.z.` carries an A record: resolving from `c0.z.` needs nine
iterations, one more than the budget of eight. -/
def ziChain : ZoneIndex :=
  { zoneFQDN := "z.", serial := 1, soa := soa0, ttlDef := 60,
    byName := [
      ("z.", [("NS", { rtype := "NS", ttl := 60, ns := ["n.z."] })]),
      ("c0.z.", [("CNAME", { rtype := "CNAME", ttl := 60, cname := "c1.z." })]),
      ("c1.z.", [("CNAME", { rtype := "CNAME", ttl := 60, cname := "c2.z." })]),
      ("c2.z.", [("CNAME", { rtype := "CNAME", ttl := 60, cname := "c3.z." })]),
      ("c3.z.", [("CNAME", { rtype := "CNAME", ttl := 60, cname := "c4.z." })]),
      ("c4.z.", [("CNAME", { rtype := "CNAME", ttl := 60, cname := "c5.z." })]),
      ("c5.z.", [("CNAME", { rtype := "CNAME", ttl := 60, cname := "c6.z." })]),
      ("c6.z.", [("CNAME", { rtype := "CNAME", ttl := 60, cname := "c7.z." })]),
      ("c7.z.", [("CNAME", { rtype := "CNAME", ttl := 60, cname := "c8.z." })]),
      ("c8.z.", [("A", { rtype := "A", ttl := 60, a := ["1.2.3.4"] })]) ] }

/-- Index with a self-referential CNAME at `a.z.`. -/
def ziLoopA : ZoneIndex :=
  { zoneFQDN := "z.", serial := 1, soa := soa0, ttlDef := 60,
    byName := [
      ("z.", [("NS", { rtype := "NS", ttl := 60, ns := ["n.z."] })]),
      ("a.z.", [("CNAME", { rtype := "CNAME", ttl := 60, cname := "a.z." })]) ] }

/-- Index where `w.z.` is a CNAME with TTL 5 pointing at the apex, which
has an A RRset with TTL 100. -/
def ziC6 : ZoneIndex :=
  { zoneFQDN := "z.", serial := 1, soa := soa0, ttlDef := 60,
    byName := [
      ("z.", [("NS", { rtype := "NS", ttl := 60, ns := ["n.z."] }),
              ("A", { rtype := "A", ttl := 100, a := ["9.9.9.9"] })]),
      ("w.z.", [("CNAME", { rtype := "CNAME", ttl := 5, cname := "z." })]) ] }

/-- An MX RRset whose two elements reference the same in-zone host. -/
def mxSetC7 : RRSet :=
  { rtype := "MX", ttl := 60,
    mx := [{ preference := 10, host := "mail.z." }, { preference := 20, host := "mail.z." }] }

/-- Index holding `mxSetC7` at the apex and an A record for `mail.z.`. -/
def ziC7 : ZoneIndex :=
  { zoneFQDN := "z.", serial := 1, soa := soa0, ttlDef := 60,
    byName := [
      ("z.", [("MX", mxSetC7)]),
      ("mail.z.", [("A", { rtype := "A", ttl := 60, a := ["1.2.3.4"] })]) ] }

/-- The additional record synthesised for `mail.z.` in `ziC7`. -/
def aRRC7 : RR := { name := "mail.z.", rrtype := 1, ttl := 60, data := "1.2.3.4" }

/-- Zone file for `example.com.` containing a record whose absolute name
`evil.other.` lies outside the zone. -/
def zfC8 : ZoneFile :=
  { zone := "example.com", serial := 1, ttlDefault := 60, soa := soa0, ns := ["ns1"],
    records := [
      { name := "evil.other.", rtype := "A", values := .strs ["1.2.3.4"] } ] }

/-- A minimal record-free zone file for the zone `zed.`. -/
def zfW : ZoneFile :=
  { zone := "zed.", serial := 7, ttlDefault := 60, soa := soa0, ns := ["ns1.zed."] }

/-- The index `zfW` loads to. -/
def idxW : ZoneIndex :=
  { zoneFQDN := "zed.", serial := 7, soa := soa0, ttlDef := 60,
    byName := [("zed.", [("NS", { rtype := "NS", ttl := 60, ns := ["ns1.zed."] })])] }

/-! ## Helper lemmas about the query engine -/

theorem findWildcard_mem (zi : ZoneIndex) (name : String) (qtype : Nat) :
    ∀ (cands : List String) (x : List RR × Nat),
    findWildcard zi name qtype cands = some x →
    ∃ wc ∈ cands, (assocFind zi.byName wc).isSome = true := by
  intro cands
  induction cands with
  | nil => intro x h; simp [findWildcard] at h
  | cons wc rest ih =>
    intro x h
    unfold findWildcard at h
    cases hm : assocFind zi.byName wc with
    | some m => exact ⟨wc, List.mem_cons_self _ _, by rw [hm]; rfl⟩
    | none =>
      rw [hm] at h
      obtain ⟨w, hw, hws⟩ := ih x h
      exact ⟨w, List.mem_cons_of_mem _ hw, hws⟩

theorem findRRSet_mem (zi : ZoneIndex) (n : String) (qt : Nat) (x : List RR × Nat)
    (h : findRRSet zi n qt = some x) :
    hasName zi n = true ∨ hasWildcardCandidate zi n = true := by
  unfold findRRSet at h
  cases hm : assocFind zi.byName n with
  | some m => left; simp [hasName, hm]
  | none =>
    rw [hm] at h
    right
    obtain ⟨w, hw, hws⟩ := findWildcard_mem zi n qt _ x h
    unfold hasWildcardCandidate
    rw [List.any_eq_true]
    exact ⟨w, hw, hws⟩

theorem lookupLoop_rc (zi : ZoneIndex) (qtype : Nat) :
    ∀ (fuel : Nat) (cur : String) (visited : List String) (ans : List RR) (ttl : Nat)
      (r : List RR × List RR × Nat × Nat),
    lookupLoop zi qtype fuel cur visited ans ttl = some r →
    r.2.2.1 = 0 ∨ r = ([], [], 2, 0) := by
  intro fuel
  induction fuel with
  | zero => intro cur visited ans ttl r h; simp [lookupLoop] at h
  | succ n ih =>
    intro cur visited ans ttl r h
    unfold lookupLoop at h
    cases hf : findRRSet zi cur qtype with
    | some p =>
      obtain ⟨rrs, t⟩ := p
      rw [hf] at h
      cases h
      left; rfl
    | none =>
      rw [hf] at h
      by_cases hv : cur ∈ visited
      · rw [if_pos hv] at h
        cases h
        right; rfl
      · rw [if_neg hv] at h
        cases hc : findRRSet zi cur 5 with
        | some q =>
          obtain ⟨rrs, t⟩ := q
          rw [hc] at h
          exact ih _ _ _ _ _ h
        | none => rw [hc] at h; cases h

theorem lookupLoop_first (zi : ZoneIndex) (qtype fuel : Nat) (cur : String)
    (ans : List RR) (ttl : Nat) (r : List RR × List RR × Nat × Nat)
    (h : lookupLoop zi qtype (fuel + 1) cur [] ans ttl = some r) :
    hasName zi cur = true ∨ hasWildcardCandidate zi cur = true := by
  unfold lookupLoop at h
  cases hf : findRRSet zi cur qtype with
  | some p => exact findRRSet_mem zi cur qtype p hf
  | none =>
    rw [hf] at h
    rw [if_neg (List.not_mem_nil cur)] at h
    cases hc : findRRSet zi cur 5 with
    | some q => exact findRRSet_mem zi cur 5 q hc
    | none => rw [hc] at h; cases h

theorem lookup_servfail_empty (zi : ZoneIndex) (qname : String) (qtype : Nat)
    (h : (lookup zi qname qtype).2.2.1 = 2) :
    (lookup zi qname qtype).1 = [] ∧ (lookup zi qname qtype).2.1 = [] := by
  simp only [lookup] at h ⊢
  revert h
  cases hl : lookupLoop zi qtype 8 (strToLower (goFqdn qname)) [] [] 0 with
  | some r0 =>
    intro h
    have h' : r0.2.2.1 = 2 := h
    rcases lookupLoop_rc zi qtype 8 _ _ _ _ r0 hl with h0 | h2
    · omega
    · show r0.1 = [] ∧ r0.2.1 = []
      rw [h2]
      exact ⟨rfl, rfl⟩
  | none =>
    intro h
    show ((if (hasName zi (strToLower (goFqdn qname)) ||
        hasWildcardCandidate zi (strToLower (goFqdn qname))) = true
        then (([], [], 0, 0) : List RR × List RR × Nat × Nat)
        else ([], [], 3, 0)).1 = []) ∧
      ((if (hasName zi (strToLower (goFqdn qname)) ||
        hasWildcardCandidate zi (strToLower (goFqdn qname))) = true
        then (([], [], 0, 0) : List RR × List RR × Nat × Nat)
        else ([], [], 3, 0)).2.1 = [])
    constructor <;> split <;> rfl

/-! ## Claim theorems -/

/-- C1: the loader's CNAME-uniqueness invariant is violated by the code: the
zone file `zfC1`, whose records place an A RRset and then a CNAME at the
same name, is accepted by `ToIndex`, and the resulting index maps
`w.example.com.` to both a CNAME RRset and an A RRset.  (`hasOtherTypes`
answers whether the single existing RRset is the CNAME one instead of
whether a non-CNAME RRset exists.) -/
theorem c1_cname_plus_other_type_accepted :
    indexHasTypes zfC1.toIndex "w.example.com." "CNAME" "A" = true := by decide

/-- C2 counterexample: in `ziC2`, the name `a.z.` is a CNAME to the absent
name `b.z.`; the chain ends at `cur_name = b.z.`, which neither exists in
the index nor has a wildcard candidate, yet `lookup` returns NOERROR
(rcode 0) with an empty answer because it tests the original qname `a.z.` —
the claim requires NXDOMAIN (rcode 3) here. -/
theorem c2_nodata_uses_original_qname_cex :
    lookup ziC2 "a.z." 1 = ([], [], 0, 0) ∧
    (findRRSet ziC2 "a.z." 5).isSome = true ∧
    hasName ziC2 "b.z." = false ∧
    hasWildcardCandidate ziC2 "b.z." = false := by decide

/-- C2 amended: the NODATA/NXDOMAIN decision after the resolution loop is
made on the original (lowercased, dot-terminated) qname, not on the name
reached by following CNAMEs: NXDOMAIN is returned exactly when the original
qname is absent and has no wildcard candidate, and a NOERROR result with an
empty answer implies the original qname exists or has a wildcard
candidate. -/
theorem c2_nodata_nxdomain_on_original_qname (zi : ZoneIndex) (qname : String)
    (qtype : Nat) :
    ((lookup zi qname qtype).2.2.1 = 3 →
      (hasName zi (strToLower (goFqdn qname)) = false ∧
       hasWildcardCandidate zi (strToLower (goFqdn qname)) = false) ∧
      (lookup zi qname qtype).1 = []) ∧
    ((lookup zi qname qtype).2.2.1 = 0 ∧ (lookup zi qname qtype).1 = [] →
      hasName zi (strToLower (goFqdn qname)) = true ∨
      hasWildcardCandidate zi (strToLower (goFqdn qname)) = true) := by
  constructor
  · intro h3
    simp only [lookup] at h3 ⊢
    revert h3
    cases hl : lookupLoop zi qtype 8 (strToLower (goFqdn qname)) [] [] 0 with
    | some r0 =>
      intro h3
      have h' : r0.2.2.1 = 3 := h3
      rcases lookupLoop_rc zi qtype 8 _ _ _ _ r0 hl with h0 | h2
      · omega
      · rw [h2] at h'; exact absurd h' (by decide)
    | none =>
      intro h3
      have h' : (if (hasName zi (strToLower (goFqdn qname)) ||
          hasWildcardCandidate zi (strToLower (goFqdn qname))) = true
          then (([], [], 0, 0) : List RR × List RR × Nat × Nat)
          else ([], [], 3, 0)).2.2.1 = 3 := h3
      by_cases hb : (hasName zi (strToLower (goFqdn qname)) ||
          hasWildcardCandidate zi (strToLower (goFqdn qname))) = true
      · rw [if_pos hb] at h'; exact absurd h' (by decide)
      · refine ⟨⟨?_, ?_⟩, ?_⟩
        · cases hn : hasName zi (strToLower (goFqdn qname)) with
          | false => rfl
          | true => exact absurd (by simp [hn]) hb
        · cases hw : hasWildcardCandidate zi (strToLower (goFqdn qname)) with
          | false => rfl
          | true => exact absurd (by simp [hw]) hb
        · show (if (hasName zi (strToLower (goFqdn qname)) ||
              hasWildcardCandidate zi (strToLower (goFqdn qname))) = true
              then (([], [], 0, 0) : List RR × List RR × Nat × Nat)
              else ([], [], 3, 0)).1 = []
          split <;> rfl
  · rintro ⟨h0, hemp⟩
    simp only [lookup] at h0 hemp
    revert h0 hemp
    cases hl : lookupLoop zi qtype 8 (strToLower (goFqdn qname)) [] [] 0 with
    | some r0 =>
      intro h0 hemp
      exact lookupLoop_first zi qtype 7 _ _ _ r0 hl
    | none =>
      intro h0 hemp
      by_cases hb : (hasName zi (strToLower (goFqdn qname)) ||
          hasWildcardCandidate zi (strToLower (goFqdn qname))) = true
      · rcases (Bool.or_eq_true _ _).mp hb with h | h
        · exact Or.inl h
        · exact Or.inr h
      · have h' : (if (hasName zi (strToLower (goFqdn qname)) ||
            hasWildcardCandidate zi (strToLower (goFqdn qname))) = true
            then (([], [], 0, 0) : List RR × List RR × Nat × Nat)
            else ([], [], 3, 0)).2.2.1 = 0 := h0
        rw [if_neg hb] at h'; exact absurd h' (by decide)

/-- C2 witness: at the concrete index `ziC2` and the absent qname `q.z.`,
the amended theorem yields that `q.z.` has no entry and no wildcard, with an
empty answer; the NXDOMAIN hypothesis is discharged by evaluation. -/
theorem c2_nodata_nxdomain_on_original_qname_witness :
    (hasName ziC2 (strToLower (goFqdn "q.z.")) = false ∧
     hasWildcardCandidate ziC2 (strToLower (goFqdn "q.z.")) = false) ∧
    (lookup ziC2 "q.z." 1).1 = [] :=
  (c2_nodata_nxdomain_on_original_qname ziC2 "q.z." 1).1 (by decide)

/-- C4 counterexample: in `ziChain` the CNAME chain from `c0.z.` needs nine
iterations while the budget is eight; the chain's endpoint `c8.z.` does
resolve, yet `lookup` returns NOERROR (rcode 0) with an empty answer — not
ServerFailure (rcode 2) as the claim requires for an exceeded depth limit. -/
theorem c4_depth_exceeded_not_servfail_cex :
    lookup ziChain "c0.z." 1 = ([], [], 0, 0) ∧
    (findRRSet ziChain "c8.z." 1).isSome = true := by decide

/-- C4 amended: ServerFailure is produced only by revisiting a name within
the eight-iteration budget and always carries no answer and no additional
records (first conjunct, for every index and query); a genuine CNAME loop
such as the self-loop in `ziLoopA` does produce it (second conjunct).
Exhausting the depth budget without a revisit instead falls through to the
NODATA/NXDOMAIN decision. -/
theorem c4_servfail_only_on_revisit (zi : ZoneIndex) (qname : String) (qtype : Nat) :
    ((lookup zi qname qtype).2.2.1 = 2 →
      (lookup zi qname qtype).1 = [] ∧ (lookup zi qname qtype).2.1 = []) ∧
    lookup ziLoopA "a.z." 1 = ([], [], 2, 0) :=
  ⟨fun h => lookup_servfail_empty zi qname qtype h, by decide⟩

/-- C4 witness: the self-loop index gives ServerFailure with empty answer
and additional sections. -/
theorem c4_servfail_only_on_revisit_witness :
    (lookup ziLoopA "a.z." 1).1 = [] ∧ (lookup ziLoopA "a.z." 1).2.1 = [] :=
  (c4_servfail_only_on_revisit ziLoopA "a.z." 1).1 (by decide)

theorem lookupLoop_terminal (zi : ZoneIndex) (qtype : Nat) :
    ∀ (fuel : Nat) (cur : String) (visited : List String) (ans : List RR) (ttl : Nat)
      (res : List RR × List RR × Nat × Nat),
    lookupLoop zi qtype fuel cur visited ans ttl = some res →
    res.2.2.1 = 0 →
    ∃ nm rrs pre, findRRSet zi nm qtype = some (rrs, res.2.2.2) ∧
      res.1 = pre ++ rrs ∧ res.2.1 = addAdditionals zi rrs := by
  intro fuel
  induction fuel with
  | zero => intro cur visited ans ttl res h _; simp [lookupLoop] at h
  | succ n ih =>
    intro cur visited ans ttl res h hrc
    unfold lookupLoop at h
    cases hf : findRRSet zi cur qtype with
    | some p =>
      obtain ⟨rrs, t⟩ := p
      rw [hf] at h
      cases h
      exact ⟨cur, rrs, ans, hf, rfl, rfl⟩
    | none =>
      rw [hf] at h
      by_cases hv : cur ∈ visited
      · rw [if_pos hv] at h
        cases h
        exact absurd hrc (by decide)
      · rw [if_neg hv] at h
        cases hc : findRRSet zi cur 5 with
        | some q =>
          obtain ⟨rrs, t⟩ := q
          rw [hc] at h
          exact ih _ _ _ _ _ h hrc
        | none => rw [hc] at h; cases h

/-! ## Helper lemmas about the zone store scan -/

theorem getZoneStep_le (n : String) (acc : Option ZoneIndex × String)
    (p : String × ZoneIndex) :
    strLength acc.2 ≤ strLength (getZoneStep n acc p).2 := by
  unfold getZoneStep
  split
  · next hc => exact Nat.le_of_lt hc.2
  · exact le_refl _

theorem getZoneStep_cases (n : String) (acc : Option ZoneIndex × String)
    (p : String × ZoneIndex) :
    getZoneStep n acc p = acc ∨
    (getZoneStep n acc p = (some p.2, p.1) ∧ strEndsWith n p.1 = true ∧
      strLength acc.2 < strLength p.1) := by
  unfold getZoneStep
  split
  · next hc => exact Or.inr ⟨rfl, hc.1, hc.2⟩
  · exact Or.inl rfl

theorem getZoneStep_max (n : String) (acc : Option ZoneIndex × String)
    (p : String × ZoneIndex) (he : strEndsWith n p.1 = true) :
    strLength p.1 ≤ strLength (getZoneStep n acc p).2 := by
  unfold getZoneStep
  split
  · exact le_refl _
  · next hc =>
    have hnlt : ¬ strLength acc.2 < strLength p.1 := fun hlt => hc ⟨he, hlt⟩
    exact Nat.le_of_not_lt hnlt

theorem getZone_foldl_aux (n : String) :
    ∀ (l : ZoneMap) (acc : Option ZoneIndex × String),
    (∀ p ∈ l, strEndsWith n p.1 = true →
        strLength p.1 ≤ strLength (List.foldl (getZoneStep n) acc l).2) ∧
    strLength acc.2 ≤ strLength (List.foldl (getZoneStep n) acc l).2 ∧
    (List.foldl (getZoneStep n) acc l = acc ∨
      ∃ p ∈ l, List.foldl (getZoneStep n) acc l = (some p.2, p.1) ∧
        strEndsWith n p.1 = true ∧ strLength acc.2 < strLength p.1) := by
  intro l
  induction l with
  | nil =>
    intro acc
    refine ⟨?_, le_refl _, Or.inl rfl⟩
    intro p hp; cases hp
  | cons q t ih =>
    intro acc
    have hfold : List.foldl (getZoneStep n) acc (q :: t) =
        List.foldl (getZoneStep n) (getZoneStep n acc q) t := rfl
    obtain ⟨ih1, ih2, ih3⟩ := ih (getZoneStep n acc q)
    rw [hfold]
    refine ⟨?_, ?_, ?_⟩
    · intro p hp hend
      rcases List.mem_cons.mp hp with rfl | hpt
      · exact le_trans (getZoneStep_max n acc p hend) ih2
      · exact ih1 p hpt hend
    · exact le_trans (getZoneStep_le n acc q) ih2
    · rcases ih3 with heq | ⟨p, hpt, hres, hend, hlt⟩
      · rcases getZoneStep_cases n acc q with hq | ⟨hq, hqe, hql⟩
        · exact Or.inl (heq.trans hq)
        · exact Or.inr ⟨q, List.mem_cons_self _ _, heq.trans hq, hqe, hql⟩
      · exact Or.inr ⟨p, List.mem_cons_of_mem _ hpt, hres, hend,
          Nat.lt_of_le_of_lt (getZoneStep_le n acc q) hlt⟩

/-- C5 counterexample: with the single zone `example.com.` installed, the
qname `example.com.` itself is matched to that zone — the Go suffix test
includes equality — whereas the claim ("longest proper suffix", "a qname
equal to a zone's own FQDN is matched only via a strictly shorter enclosing
zone") requires no match here. -/
theorem c5_zone_matches_itself_cex :
    getZoneForName [("example.com.", ziEx)] "example.com." =
      (some ziEx, "example.com.") := by decide

/-- C5 amended: `GetZoneForName` returns the zone whose FQDN is the longest
(not necessarily proper) suffix of the lowercased qname, or none when no
zone FQDN is a suffix of it: every installed zone whose FQDN suffixes the
qname is no longer than the returned match; a non-empty match is an
installed zone suffixing the qname whose index is returned; an empty match
returns no index. -/
theorem c5_longest_suffix_match (zones : ZoneMap) (qname : String) :
    (∀ p ∈ zones, strEndsWith (strToLower qname) p.1 = true →
      strLength p.1 ≤ strLength (getZoneForName zones qname).2) ∧
    ((getZoneForName zones qname).2 ≠ "" →
      strEndsWith (strToLower qname) (getZoneForName zones qname).2 = true ∧
      ∃ v, ((getZoneForName zones qname).2, v) ∈ zones ∧
        (getZoneForName zones qname).1 = some v) ∧
    ((getZoneForName zones qname).2 = "" → (getZoneForName zones qname).1 = none) := by
  simp only [getZoneForName]
  obtain ⟨h1, _h2, h3⟩ := getZone_foldl_aux (strToLower qname) zones (none, "")
  refine ⟨h1, ?_, ?_⟩
  · intro hne
    rcases h3 with heq | ⟨p, hp, hres, hend, _⟩
    · rw [heq] at hne; exact absurd rfl hne
    · rw [hres]
      exact ⟨hend, p.2, hp, rfl⟩
  · intro hz
    rcases h3 with heq | ⟨p, _hp, hres, _hend, hlt⟩
    · rw [heq]
    · rw [hres] at hz
      have hz' : p.1 = "" := hz
      rw [hz'] at hlt
      exact absurd hlt (by decide)

/-- C5 witness: at the store holding only `example.com.` and the qname
`www.example.com.`, the amended theorem's non-empty-match case yields that
the match suffixes the qname and its index is returned. -/
theorem c5_longest_suffix_match_witness :
    strEndsWith (strToLower "www.example.com.")
      (getZoneForName [("example.com.", ziEx)] "www.example.com.").2 = true ∧
    ∃ v, ((getZoneForName [("example.com.", ziEx)] "www.example.com.").2, v) ∈
        [("example.com.", ziEx)] ∧
      (getZoneForName [("example.com.", ziEx)] "www.example.com.").1 = some v :=
  (c5_longest_suffix_match [("example.com.", ziEx)] "www.example.com.").2.1 (by decide)

/-- C3 counterexample: with only the enclosing zone `com.` (serial 100)
installed, a reload delivering the not-installed zone `example.com.` with
serial 5 is dropped — no swap, no invalidation — although the claim
requires a swap whenever the zone was not installed. -/
theorem c3_reload_gated_by_enclosing_zone_cex :
    onZoneUpdated [("com.", ziCom)] ziEx5 = ([("com.", ziCom)], none) ∧
    assocFind [("com.", ziCom)] ziEx5.zoneFQDN = none := by decide

/-- C3 amended: the reload is a no-op on the store and cache exactly when
the store's longest-suffix search for the new index's zone FQDN finds some
installed zone — possibly a strictly enclosing one, not necessarily the
zone itself — whose serial is at least the new serial; otherwise the new
index is swapped in and the zone's cache slice is invalidated. -/
theorem c3_reload_noop_iff_found_serial_ge (store : ZoneMap) (zi : ZoneIndex) :
    (onZoneUpdated store zi = (store, none) ↔
      ∃ old, (getZoneForName store zi.zoneFQDN).1 = some old ∧ zi.serial ≤ old.serial) ∧
    (onZoneUpdated store zi = (store, none) ∨
      onZoneUpdated store zi = (swapZone store zi, some zi.zoneFQDN)) := by
  unfold onZoneUpdated
  split
  · next old hg =>
    split
    · next hs => exact ⟨⟨fun _ => ⟨old, hg, hs⟩, fun _ => rfl⟩, Or.inl rfl⟩
    · next hs =>
      refine ⟨⟨?_, ?_⟩, Or.inr rfl⟩
      · intro he
        exact Option.noConfusion (congrArg Prod.snd he)
      · rintro ⟨old', ho, hs'⟩
        have hoo : old = old' := Option.some.inj (hg.symm.trans ho)
        rw [← hoo] at hs'
        exact absurd hs' hs
  · next hg =>
    refine ⟨⟨?_, ?_⟩, Or.inr rfl⟩
    · intro he
      exact Option.noConfusion (congrArg Prod.snd he)
    · rintro ⟨old', ho, _⟩
      exact Option.noConfusion (hg.symm.trans ho)

/-- C3 witness: with `example.com.` itself installed at serial 100, a
reload with serial 5 is a no-op: the amended theorem's no-op case applies
because the longest-suffix search finds the installed zone with the larger
serial. -/
theorem c3_reload_noop_iff_found_serial_ge_witness :
    onZoneUpdated [("example.com.", ziCom100Ex)] ziEx5 =
      ([("example.com.", ziCom100Ex)], none) :=
  ((c3_reload_noop_iff_found_serial_ge [("example.com.", ziCom100Ex)] ziEx5).1).mpr
    ⟨ziCom100Ex, by decide, by decide⟩

/-- C6 counterexample: in `ziC6`, resolving `w.z.` for type A follows the
CNAME (TTL 5) to the apex A RRset (TTL 100); `ServeDNS` caches the response
with TTL 100, the terminal RRset's TTL, while the minimum TTL across all
answer records — the claim's value — is 5. -/
theorem c6_cached_ttl_not_min_answer_ttl_cex :
    serveInZoneEffect ziC6 "w.z." 1 = some (.positive "w.z." 1 100) ∧
    specMinAnswerTTL (lookup ziC6 "w.z." 1).1 = 5 := by decide

/-- C6 amended: a positively cached in-zone response is stored under
`(qname, qtype)` with TTL equal to the TTL of the terminal matched RRset
(the value `findRRSet` returned at the last loop step, whose records form
the tail of the answer section and feed the additional section); CNAME
records prepended while following the chain do not lower it.  Every
non-NOERROR in-zone response is cached negatively with the zone SOA's
`negative_ttl`. -/
theorem c6_cache_ttl_terminal_rrset (zi : ZoneIndex) (rawName : String)
    (qtype t' : Nat) :
    (serveInZoneEffect zi rawName qtype = some (.positive (goFqdn rawName) qtype t') →
      ∃ nm rrs pre, findRRSet zi nm qtype = some (rrs, t') ∧
        (lookup zi (goFqdn rawName) qtype).1 = pre ++ rrs ∧
        (lookup zi (goFqdn rawName) qtype).2.1 = addAdditionals zi rrs) ∧
    ((lookup zi (goFqdn rawName) qtype).2.2.1 ≠ 0 →
      serveInZoneEffect zi rawName qtype = some (.negative (goFqdn rawName) qtype
        ((lookup zi (goFqdn rawName) qtype).2.2.1) zi.soa.negativeTTL)) := by
  constructor
  · intro h
    simp only [serveInZoneEffect] at h
    by_cases hc : (lookup zi (goFqdn rawName) qtype).2.2.1 = 0 ∧
        (lookup zi (goFqdn rawName) qtype).1 ≠ []
    · rw [if_pos hc] at h
      simp only [Option.some.injEq, CachePut.positive.injEq] at h
      obtain ⟨hc0, hcne⟩ := hc
      have ht : (lookup zi (goFqdn rawName) qtype).2.2.2 = t' := h.2.2
      revert hc0 hcne ht
      simp only [lookup]
      cases hl : lookupLoop zi qtype 8
          (strToLower (goFqdn (goFqdn rawName))) [] [] 0 with
      | some r0 =>
        intro hc0 hcne ht
        have hc0' : r0.2.2.1 = 0 := hc0
        obtain ⟨nm, rrs, pre, hfind, hans, haddl⟩ :=
          lookupLoop_terminal zi qtype 8 _ _ _ _ r0 hl hc0'
        have ht' : r0.2.2.2 = t' := ht
        rw [ht'] at hfind
        exact ⟨nm, rrs, pre, hfind, hans, haddl⟩
      | none =>
        intro hc0 hcne ht
        have hemp : (if (hasName zi (strToLower (goFqdn (goFqdn rawName))) ||
            hasWildcardCandidate zi (strToLower (goFqdn (goFqdn rawName)))) = true
            then (([], [], 0, 0) : List RR × List RR × Nat × Nat)
            else ([], [], 3, 0)).1 = [] := by split <;> rfl
        exact absurd hemp hcne
    · rw [if_neg hc] at h
      by_cases hn : (lookup zi (goFqdn rawName) qtype).2.2.1 ≠ 0
      · rw [if_pos hn] at h
        exact absurd h (by simp)
      · rw [if_neg hn] at h
        exact Option.noConfusion h
  · intro hne
    simp only [serveInZoneEffect]
    have hcond : ¬ ((lookup zi (goFqdn rawName) qtype).2.2.1 = 0 ∧
        (lookup zi (goFqdn rawName) qtype).1 ≠ []) := fun hcc => hne hcc.1
    rw [if_neg hcond, if_pos hne]

/-- C6 witness: at `ziC6` with qname `w.z.` and type A, the amended theorem
yields the terminal RRset (the apex A set with TTL 100) behind the cached
TTL; the positive-cache hypothesis is discharged by evaluation. -/
theorem c6_cache_ttl_terminal_rrset_witness :
    ∃ nm rrs pre, findRRSet ziC6 nm 1 = some (rrs, 100) ∧
      (lookup ziC6 (goFqdn "w.z.") 1).1 = pre ++ rrs ∧
      (lookup ziC6 (goFqdn "w.z.") 1).2.1 = addAdditionals ziC6 rrs :=
  (c6_cache_ttl_terminal_rrset ziC6 "w.z." 1 100).1 (by decide)

/-! ## Helper lemmas about the additional section and the loader's keys -/

theorem addAdditionals_foldl_mem (zi : ZoneIndex) :
    ∀ (l : List RR) (acc : List RR) (rr : RR),
    rr ∈ l.foldl (fun acc rr =>
      if rr.rrtype = 15 then acc ++ lookupAorAAAA zi rr.target
      else if rr.rrtype = 2 then acc ++ lookupAorAAAA zi rr.target
      else acc) acc →
    rr ∈ acc ∨ ∃ a ∈ l, (a.rrtype = 15 ∨ a.rrtype = 2) ∧
      rr ∈ lookupAorAAAA zi a.target := by
  intro l
  induction l with
  | nil => intro acc rr h; exact Or.inl h
  | cons a t ih =>
    intro acc rr h
    rcases ih _ rr h with hacc | ⟨b, hb, hbt, hbm⟩
    · simp only [] at hacc
      by_cases h15 : a.rrtype = 15
      · rw [if_pos h15] at hacc
        rcases List.mem_append.mp hacc with h1 | h2
        · exact Or.inl h1
        · exact Or.inr ⟨a, List.mem_cons_self _ _, Or.inl h15, h2⟩
      · by_cases h2t : a.rrtype = 2
        · rw [if_neg h15, if_pos h2t] at hacc
          rcases List.mem_append.mp hacc with h1 | h2
          · exact Or.inl h1
          · exact Or.inr ⟨a, List.mem_cons_self _ _, Or.inr h2t, h2⟩
        · rw [if_neg h15, if_neg h2t] at hacc
          exact Or.inl hacc
    · exact Or.inr ⟨b, List.mem_cons_of_mem _ hb, hbt, hbm⟩

theorem keysOf_cons {κ α : Type} (p : κ × α) (l : List (κ × α)) :
    keysOf (p :: l) = p.1 :: keysOf l := rfl

theorem keysOf_assocInsert {α : Type} :
    ∀ (l : List (String × α)) (k : String) (v : α) (x : String),
    x ∈ keysOf (assocInsert l k v) → x = k ∨ x ∈ keysOf l := by
  intro l
  induction l with
  | nil =>
    intro k v x hx
    simp only [assocInsert, keysOf, List.map_cons, List.map_nil] at hx
    rcases List.mem_cons.mp hx with h1 | h2
    · exact Or.inl h1
    · cases h2
  | cons p t ih =>
    intro k v x hx
    obtain ⟨k', v'⟩ := p
    simp only [assocInsert] at hx
    by_cases hk : k' = k
    · rw [if_pos hk] at hx
      rw [keysOf_cons] at hx
      rcases List.mem_cons.mp hx with h1 | h2
      · exact Or.inl h1
      · exact Or.inr (by rw [keysOf_cons]; exact List.mem_cons_of_mem _ h2)
    · rw [if_neg hk] at hx
      rw [keysOf_cons] at hx
      rcases List.mem_cons.mp hx with h1 | h2
      · exact Or.inr (by rw [keysOf_cons]; exact h1 ▸ List.mem_cons_self _ _)
      · rcases ih k v x h2 with he | hin
        · exact Or.inl he
        · exact Or.inr (by rw [keysOf_cons]; exact List.mem_cons_of_mem _ hin)

theorem processRecord_ok_shape (zoneFQDN : String) (ttlDefault : Nat) (acc : ByName)
    (r : RawRecord) (acc' : ByName)
    (h : processRecord zoneFQDN ttlDefault acc r = .ok acc') :
    ∃ m', acc' = assocInsert acc (NormalizeFQDN r.name zoneFQDN) m' := by
  simp only [processRecord] at h
  revert h
  cases hu : updateNameMap (strToUpper r.rtype)
      ((assocFind acc (NormalizeFQDN r.name zoneFQDN)).getD [])
      (ensureTTL r.ttl ttlDefault) r zoneFQDN with
  | error e => intro h; cases h
  | ok m' =>
    intro h
    cases h
    exact ⟨m', rfl⟩

theorem processRecords_keys (zoneFQDN : String) (ttlDefault : Nat) :
    ∀ (rs : List RawRecord) (acc acc' : ByName),
    processRecords zoneFQDN ttlDefault rs acc = .ok acc' →
    ∀ x ∈ keysOf acc', x ∈ keysOf acc ∨ ∃ r ∈ rs, x = NormalizeFQDN r.name zoneFQDN := by
  intro rs
  induction rs with
  | nil =>
    intro acc acc' h x hx
    simp only [processRecords] at h
    cases h
    exact Or.inl hx
  | cons r t ih =>
    intro acc acc' h x hx
    simp only [processRecords] at h
    revert h
    cases hp : processRecord zoneFQDN ttlDefault acc r with
    | error e => intro h; cases h
    | ok acc1 =>
      intro h
      obtain ⟨m', hm⟩ := processRecord_ok_shape _ _ _ _ _ hp
      rcases ih acc1 acc' h x hx with h1 | ⟨rr, hrr, hx'⟩
      · rw [hm] at h1
        rcases keysOf_assocInsert _ _ _ _ h1 with he | hin
        · exact Or.inr ⟨r, List.mem_cons_self _ _, he⟩
        · exact Or.inl hin
      · exact Or.inr ⟨rr, List.mem_cons_of_mem _ hrr, hx'⟩

/-- C7 counterexample: in `ziC7` the two MX answers reference the same host
`mail.z.`, and the synthesised additional section contains that host's A
record twice — duplicates are not suppressed, contradicting the claim that
each host's address records appear at most once. -/
theorem c7_duplicate_additionals_cex :
    (toRR "z." mxSetC7).length = 2 ∧
    (addAdditionals ziC7 (toRR "z." mxSetC7)).count aRRC7 = 2 := by decide

/-- C7 amended: every synthesised additional record does come from the
A/AAAA RRsets, looked up in the same zone's index, of a host referenced by
an MX (type 15) or NS (type 2) answer — the host's name is then a key of
the index — but duplicates are not suppressed: the same host's records are
appended once per referencing answer. -/
theorem c7_additionals_from_mx_ns (zi : ZoneIndex) (answers : List RR) (rr : RR)
    (h : rr ∈ addAdditionals zi answers) :
    ∃ a ∈ answers, (a.rrtype = 15 ∨ a.rrtype = 2) ∧
      rr ∈ lookupAorAAAA zi a.target ∧
      (assocFind zi.byName (strToLower (goFqdn a.target))).isSome = true := by
  rcases addAdditionals_foldl_mem zi answers [] rr h with hac | ⟨a, ha, hat, ham⟩
  · cases hac
  · refine ⟨a, ha, hat, ham, ?_⟩
    simp only [lookupAorAAAA] at ham
    revert ham
    cases hm : assocFind zi.byName (strToLower (goFqdn a.target)) with
    | none => intro ham; cases ham
    | some m => intro _; rfl

/-- C7 witness: at `ziC7` the additional A record for `mail.z.` traces back
to an MX answer whose host is present in the zone index; the membership
hypothesis is discharged by evaluation. -/
theorem c7_additionals_from_mx_ns_witness :
    ∃ a ∈ toRR "z." mxSetC7, (a.rrtype = 15 ∨ a.rrtype = 2) ∧
      aRRC7 ∈ lookupAorAAAA ziC7 a.target ∧
      (assocFind ziC7.byName (strToLower (goFqdn a.target))).isSome = true :=
  c7_additionals_from_mx_ns ziC7 (toRR "z." mxSetC7) aRRC7 (by decide)

/-- C8 counterexample: the zone file `zfC8` for `example.com.` contains a
record whose absolute name `evil.other.` lies outside the zone; the loader
accepts the zone, and the stored name does not end with the zone FQDN —
the claim requires whole-zone rejection. -/
theorem c8_out_of_zone_name_accepted_cex :
    indexAcceptedWithKey zfC8.toIndex "evil.other." = true ∧
    strEndsWith "evil.other." (indexZoneFQDN zfC8.toIndex) = false := by decide

/-- C8 amended: every name stored by an accepted zone file is either the
lowercased apex or the `NormalizeFQDN` image of some record's name —
relative names thus receive the zone suffix, but a record name already
carrying a trailing dot is stored verbatim (lowercased) with no check that
it lies inside the zone, so out-of-zone absolute names are not rejected. -/
theorem c8_stored_names_from_records (z : ZoneFile) (idx : ZoneIndex)
    (h : z.toIndex = .ok idx) :
    ∃ zc, z.validate? = .ok zc ∧
      ∀ x ∈ keysOf idx.byName, x = strToLower (MustFQDN zc) ∨
        ∃ r ∈ z.records, x = NormalizeFQDN r.name (MustFQDN zc) := by
  simp only [ZoneFile.toIndex] at h
  split at h
  · exact Except.noConfusion h
  · next zc hv =>
    split at h
    · exact Except.noConfusion h
    · next final hp =>
      cases h
      refine ⟨zc, hv, ?_⟩
      intro x hx
      rcases processRecords_keys (MustFQDN zc) z.ttlDefault z.records _ _ hp x hx
        with h1 | h2
      · by_cases hns : z.ns.length > 0
        · rw [if_pos hns] at h1
          have hx1 : x = strToLower (MustFQDN zc) := by
            simpa [assocInsert, keysOf] using h1
          exact Or.inl hx1
        · rw [if_neg hns] at h1
          simp [keysOf] at h1
      · exact Or.inr h2

/-- C8 witness: at the record-free zone file `zfW` and its index `idxW`,
the amended theorem gives that every stored name is the apex; the
acceptance hypothesis is discharged by evaluation. -/
theorem c8_stored_names_from_records_witness :
    ∃ zc, zfW.validate? = .ok zc ∧
      ∀ x ∈ keysOf idxW.byName, x = strToLower (MustFQDN zc) ∨
        ∃ r ∈ zfW.records, x = NormalizeFQDN r.name (MustFQDN zc) :=
  c8_stored_names_from_records zfW idxW (by decide)

/-- C9 counterexample: at the configured capacity 5 (which is at least 1),
cache construction fails because the negative capacity `5 / 10 = 0` is
rejected by the LRU constructor — the claim requires success with negative
capacity clamped to a minimum of 1. -/
theorem c9_small_capacity_fails_cex :
    newRRCaches 5 = .error "must provide a positive size" ∧ (1 : Nat) ≤ 5 := by decide

/-- C9 amended: cache-pair construction succeeds exactly for capacities of
at least 10, yielding a negative capacity of exactly `N / 10` with no
minimum-1 clamp; for every smaller capacity (including those between 1 and
9) construction fails. -/
theorem c9_capacity_threshold (N : Nat) :
    newRRCaches N =
      if 10 ≤ N then .ok (N, N / 10) else .error "must provide a positive size" := by
  by_cases h10 : 10 ≤ N
  · rw [if_pos h10]
    have h1 : 1 ≤ N := le_trans (by norm_num) h10
    have hdiv : 1 ≤ N / 10 := (Nat.one_le_div_iff (by norm_num)).mpr h10
    simp [newRRCaches, lruNew, h1, hdiv]
  · rw [if_neg h10]
    push_neg at h10
    by_cases h1 : 1 ≤ N
    · have hdiv : N / 10 = 0 := Nat.div_eq_of_lt h10
      simp [newRRCaches, lruNew, h1, hdiv]
    · simp [newRRCaches, lruNew, h1]

/-- C10: zone-suffix matching is a raw string-suffix test with no
label-boundary check: `notexample.com.` is neither the zone
`example.com.` nor a subdomain of it, yet `GetZoneForName` assigns it to
that zone and `InvalidateZone("example.com.")` removes its cache entry. -/
theorem c10_raw_suffix_match :
    strEndsWith "notexample.com." "example.com." = true ∧
    "notexample.com." ≠ "example.com." ∧
    strEndsWith "notexample.com." ("." ++ "example.com.") = false ∧
    (getZoneForName [("example.com.", ziEx)] "notexample.com.").2 = "example.com." ∧
    (getZoneForName [("example.com.", ziEx)] "notexample.com.").1 = some ziEx ∧
    invalidateKeys [cacheKey "notexample.com." 1] "example.com." = [] := by decide

end SmartDNS
